import Mathlib

/-!
Verification of the CentralNexus catalog crawler, signature extractor,
dynamic parameter resolver and dispatch scaffolding against their
natural-language specification.

The Go sources are shallowly embedded: Go maps carrying a request payload
become association lists iterated in insertion order, JSON-decoded values
(`interface{}` after `encoding/json`) become the inductive `GoVal`
(numbers are `float64` on the wire, modelled as `ℚ` since the dispatch
layer performs no arithmetic on them), and fallible operations return
`Except String`.  Character classification (`unicode.IsUpper` etc.) is
modelled on the ASCII range, which covers every identifier and payload
key this repository manipulates.
-/

deriving instance DecidableEq for Except

namespace Nexus

/-- Go's `strings.ToLower`, modelled character by character on the ASCII range
(every identifier and payload key in this repository is ASCII). -/
def lowerStr (s : String) : String :=
  String.mk (s.data.map Char.toLower)

/-- Go's `strings.TrimSpace`: strip leading and trailing whitespace. -/
def trimSpace (s : String) : String :=
  String.mk (((s.data.dropWhile Char.isWhitespace).reverse.dropWhile
    Char.isWhitespace).reverse)

/-- Go's `strings.ReplaceAll(s, "_", "")`: removing every underscore. -/
def removeUnderscores (s : String) : String :=
  String.mk (s.data.filter (fun c => c ≠ '_'))

/-- From `nexus-cli/main.go`, `normalize`:
`strings.ToLower(strings.ReplaceAll(s, "_", ""))`. -/
def normalize (s : String) : String :=
  lowerStr (removeUnderscores s)

/-- The scan that `getParam`'s `for k, v := range params` loop performs
(in the generated server of `part_000`): for each key, first the
case-insensitive rule, then the separator-insensitive rule; the first key
matching either rule wins; falling off the end yields the
parameter-not-found error. -/
def getParamScan {α : Type} (name : String) : List (String × α) → Except String α
  | [] => Except.error s!"param {name} not found in request params"
  | (k, v) :: rest =>
    let kLower := lowerStr k
    if kLower == lowerStr name then Except.ok v
    else if removeUnderscores kLower == removeUnderscores (lowerStr name) then Except.ok v
    else getParamScan name rest

/-- From the generated server, `getParam(params, name)` (`part_000`):
exact map lookup first, then the fuzzy scan over the payload. -/
def getParam {α : Type} (params : List (String × α)) (name : String) : Except String α :=
  match params.find? (fun p => p.1 == name) with
  | some p => Except.ok p.2
  | none => getParamScan name params

/-- A payload key matches the declared name case-insensitively or
separator-insensitively (the check the scan applies to each key). -/
def fuzzyMatch (k name : String) : Bool :=
  lowerStr k == lowerStr name
    || removeUnderscores (lowerStr k) == removeUnderscores (lowerStr name)

theorem getParamScan_eq_find {α : Type} (name : String) (params : List (String × α)) :
    getParamScan name params =
      match params.find? (fun p => fuzzyMatch p.1 name) with
      | some p => Except.ok p.2
      | none => Except.error s!"param {name} not found in request params" := by
  induction params with
  | nil => rfl
  | cons hd tl ih =>
    obtain ⟨k, v⟩ := hd
    by_cases h1 : (lowerStr k == lowerStr name) = true
    · simp [getParamScan, List.find?, fuzzyMatch, h1]
    · by_cases h2 :
        (removeUnderscores (lowerStr k) == removeUnderscores (lowerStr name)) = true
      · simp [getParamScan, List.find?, fuzzyMatch, h1, h2]
      · simp only [getParamScan, List.find?, fuzzyMatch, h1, h2]
        simpa [fuzzyMatch] using ih

theorem getParam_error_iff {α : Type} (params : List (String × α)) (name : String) :
    getParam params name = Except.error s!"param {name} not found in request params"
      ↔ ∀ p ∈ params, ¬(p.1 = name) ∧ ¬(lowerStr p.1 = lowerStr name)
          ∧ ¬(removeUnderscores (lowerStr p.1) = removeUnderscores (lowerStr name)) := by
  rw [getParam, getParamScan_eq_find]
  constructor
  · intro h p hp
    rcases hfind : params.find? (fun q => q.1 == name) with _ | q
    · rcases hfuzzy : params.find? (fun q => fuzzyMatch q.1 name) with _ | q
      · have h1 := List.find?_eq_none.mp hfind p hp
        have h2 := List.find?_eq_none.mp hfuzzy p hp
        simp only [beq_iff_eq] at h1
        simp only [fuzzyMatch, Bool.or_eq_true, beq_iff_eq, not_or] at h2
        exact ⟨h1, h2.1, h2.2⟩
      · rw [hfind, hfuzzy] at h; cases h
    · rw [hfind] at h; cases h
  · intro h
    rcases hfind : params.find? (fun q => q.1 == name) with _ | q
    · rcases hfuzzy : params.find? (fun q => fuzzyMatch q.1 name) with _ | q
      · simp [hfind, hfuzzy]
      · have hq := List.find?_some hfuzzy
        have hmem := List.mem_of_find?_eq_some hfuzzy
        simp only [fuzzyMatch, Bool.or_eq_true, beq_iff_eq] at hq
        rcases hq with hq | hq
        · exact absurd hq (h q hmem).2.1
        · exact absurd hq (h q hmem).2.2
    · have hq := List.find?_some hfind
      have hmem := List.mem_of_find?_eq_some hfind
      simp only [beq_iff_eq] at hq
      exact absurd hq (h q hmem).1

/-- C1 (counterexample).  The claim's three-tier precedence demands that a
case-insensitive (rule-2) match anywhere in the payload beats a merely
separator-insensitive (rule-3) match: on payload
`{"US_ERID": "a", "USER_ID": "b"}` with declared name `user_id`, the key
`USER_ID` matches under rule 2 and `US_ERID` only under rule 3 (and
neither matches exactly), so the claim requires the result `"b"`.  The
code scans the payload once, checking both fuzzy rules per key, and
returns `"a"`. -/
theorem getParam_rule2_not_prioritized :
    getParam [("US_ERID", "a"), ("USER_ID", "b")] "user_id" = Except.ok "a"
      ∧ lowerStr "USER_ID" = lowerStr "user_id"
      ∧ ¬(lowerStr "US_ERID" = lowerStr "user_id")
      ∧ removeUnderscores (lowerStr "US_ERID")
          = removeUnderscores (lowerStr "user_id")
      ∧ ¬(("US_ERID" : String) = "user_id") ∧ ¬(("USER_ID" : String) = "user_id") := by
  refine ⟨by decide, by decide, by decide, by decide, by decide, by decide⟩

/-- C1 (amended).  The resolver gives absolute precedence to an exact key
match; otherwise it scans the payload in iteration order and the first
key matching case-insensitively or separator-insensitively wins (the two
fuzzy rules are checked together per key, so a later key's
case-insensitive match does not beat an earlier key's
separator-insensitive match); it fails with the parameter-not-found
error exactly when no payload key matches under any of the three rules —
in particular on the empty payload — and the spec's examples resolve as
stated: `{"user_id": "u1"}` with declared name `userId` and
`{"UserId": "u1"}` with declared name `user_id` both yield `"u1"`. -/
theorem getParam_resolution_characterized :
    (∀ (α : Type) (params : List (String × α)) (name : String),
      getParam params name =
        match params.find? (fun p => p.1 == name) with
        | some p => Except.ok p.2
        | none =>
          match params.find? (fun p => fuzzyMatch p.1 name) with
          | some p => Except.ok p.2
          | none => Except.error s!"param {name} not found in request params")
    ∧ (∀ (α : Type) (params : List (String × α)) (name : String),
        getParam params name = Except.error s!"param {name} not found in request params"
          ↔ ∀ p ∈ params, ¬(p.1 = name) ∧ ¬(lowerStr p.1 = lowerStr name)
              ∧ ¬(removeUnderscores (lowerStr p.1)
                    = removeUnderscores (lowerStr name)))
    ∧ getParam [("user_id", "u1")] "userId" = Except.ok "u1"
    ∧ getParam [("UserId", "u1")] "user_id" = Except.ok "u1"
    ∧ (∀ (α : Type) (name : String),
        getParam ([] : List (String × α)) name
          = Except.error s!"param {name} not found in request params") := by
  refine ⟨?_, ?_, by decide, by decide, ?_⟩
  · intro α params name
    rw [getParam, getParamScan_eq_find]
  · intro α params name
    exact getParam_error_iff params name
  · intro α name
    rfl

/-- C1 amended, instantiated: payload `{"user_id": "u1"}` with declared
name `userId` resolves to `"u1"` (via the separator-insensitive rule). -/
theorem getParam_resolution_characterized_witness :
    getParam [("user_id", "u1")] "userId" = Except.ok "u1" :=
  getParam_resolution_characterized.2.2.1

/-- The rune loop of `toSnakeCase` from `nexus-cli/main.go`: walk the
runes carrying the previous rune (`none` at index 0); before an
uppercase rune, emit `'_'` when the previous rune is lowercase, or
(failing that) when the following rune exists and is lowercase; every
rune is written lowercased. -/
def snakeAux : Option Char → List Char → List Char
  | _, [] => []
  | prev?, r :: rest =>
    (match prev? with
     | none => [r.toLower]
     | some prev =>
       if r.isUpper then
         if prev.isLower then ['_', r.toLower]
         else if (match rest with | n :: _ => n.isLower | [] => false) then
           ['_', r.toLower]
         else [r.toLower]
       else [r.toLower]) ++ snakeAux (some r) rest

/-- From `nexus-cli/main.go`, `toSnakeCase` (the acronym-aware revision). -/
def toSnakeCase (s : String) : String :=
  String.mk (snakeAux none s.data)

/-- The case-conversion rule in the spec's words: insert a separator
before an uppercase letter exactly when it is not the first character
and either the preceding or the following character is lowercase; then
lowercase the entire result. -/
def snakeSpecAux : Option Char → List Char → List Char
  | _, [] => []
  | prev?, r :: rest =>
    (if r.isUpper && prev?.isSome
        && (prev?.any Char.isLower || rest.head?.any Char.isLower)
     then ['_', r] else [r]) ++ snakeSpecAux (some r) rest

/-- Wire-name derivation as the spec words it (see `snakeSpecAux`). -/
def snakeCaseSpec (s : String) : String :=
  String.mk ((snakeSpecAux none s.data).map Char.toLower)

theorem snakeAux_eq_spec (l : List Char) :
    ∀ prev?, snakeAux prev? l = (snakeSpecAux prev? l).map Char.toLower := by
  induction l with
  | nil => intro prev?; rfl
  | cons r rest ih =>
    intro prev?
    have hu : Char.toLower '_' = '_' := by decide
    simp only [snakeAux, snakeSpecAux, List.map_append]
    rw [ih (some r)]
    congr 1
    cases prev? with
    | none => simp
    | some prev =>
      by_cases hr : r.isUpper
      · by_cases hp : prev.isLower
        · simp [hr, hp, hu]
        · cases rest with
          | nil => simp [hr, hp, hu]
          | cons n rest' =>
            by_cases hn : n.isLower
            · simp [hr, hp, hn, hu]
            · simp [hr, hp, hn, hu]
      · simp [hr]

/-- C3.  The identifier-to-wire-name conversion of the CLI inserts a
separator before an uppercase letter exactly when it is not the first
character and either the preceding character is lowercase or the
following character is lowercase, then lowercases the whole result;
`"userID"` maps to `"user_id"` and the acronym run in `"HTTPServer"` is
split only before the final capital preceding a lowercase letter. -/
theorem toSnakeCase_rule :
    (∀ s, toSnakeCase s = snakeCaseSpec s)
    ∧ toSnakeCase "userID" = "user_id"
    ∧ toSnakeCase "HTTPServer" = "http_server" := by
  refine ⟨fun s => ?_, by decide, by decide⟩
  unfold toSnakeCase snakeCaseSpec
  rw [snakeAux_eq_spec]

/-- One `(name, type)` pair of the catalog (`ParamMetadata` in Go). -/
structure ParamMetadata where
  name : String
  ty : String
deriving DecidableEq

/-- One discovered operation (`ServiceEntry` in Go).  `nspace` stands for
the Go field `Namespace` (a Lean keyword). -/
structure ServiceEntry where
  nspace : String
  method : String
  description : String
  inputs : List ParamMetadata
  outputs : List ParamMetadata
deriving DecidableEq

/-- A parameter or result field of a Go function type (`ast.Field`): a
group of names sharing one type; a result field may have no names. -/
structure GoField where
  names : List String
  ty : String
deriving DecidableEq

/-- A Go function declaration as the extractor sees it (`ast.FuncDecl`):
name, optional method receiver, doc text, parameter fields, and result
fields (`none` when `fn.Type.Results == nil`). -/
structure FuncDecl where
  name : String
  recv : Option String
  doc : String
  params : List GoField
  results : Option (List GoField)
deriving DecidableEq

/-- One parsed source file of a domain's package. -/
structure GoFile where
  fname : String
  decls : List FuncDecl
deriving DecidableEq

/-- Go's `ast.IsExported`: the first character is an uppercase letter. -/
def isExported (s : String) : Bool :=
  s.data.head?.any Char.isUpper

/-- The inputs loop of `parseLibrary` (`nexus-cli/main.go`): for each
parameter field, for each declared name, record the snake-cased wire
name with the field's type. -/
def inputsOf (params : List GoField) : List ParamMetadata :=
  params.flatMap fun f => f.names.map fun n => ⟨toSnakeCase n, f.ty⟩

/-- The outputs loop of `parseLibrary`: for the `i`-th result field,
named results keep their names; an unnamed field gets the positional
placeholder `result_i`; `fn.Type.Results == nil` yields no outputs. -/
def outputsOf : Option (List GoField) → List ParamMetadata
  | none => []
  | some results =>
    results.enum.flatMap fun p =>
      if p.2.names.length > 0 then p.2.names.map fun n => ⟨n, p.2.ty⟩
      else [⟨s!"result_{p.1}", p.2.ty⟩]

/-- The `ServiceEntry` that `parseLibrary` appends for one exported
function declaration. -/
def declEntry (nspace : String) (fn : FuncDecl) : ServiceEntry :=
  ⟨nspace, fn.name, trimSpace fn.doc, inputsOf fn.params, outputsOf fn.results⟩

/-- From `nexus-cli/main.go`, `parseLibrary(path, namespace)`, restricted
to the catalog entries it returns (its parallel `FunctionMetadata` list
feeds only the code generators): every function declaration of every
parsed file, skipping non-exported names. -/
def parseLibrary (nspace : String) (files : List GoFile) : List ServiceEntry :=
  files.flatMap fun file =>
    (file.decls.filter fun fn => isExported fn.name).map (declEntry nspace)

/-- The `LibConfig` record: the per-directory Domain Descriptor `lib_config.json`. -/
structure LibConfig where
  hasNestedDomains : Bool
  domains : List String
  isDomain : Bool
deriving DecidableEq

/-- A directory of the library tree: its descriptor (`none` models a
missing or unparsable `lib_config.json`), its parsed Go files, and its
subdirectories by name. -/
inductive DirTree where
  | node (config : Option LibConfig) (files : List GoFile)
      (children : List (String × DirTree))

/-- From `nexus-cli/main.go`, `crawlLibrary(currentPath, currentNamespace)`: unreadable or invalid descriptor prunes the
subtree; `isDomain` extracts the directory's own operations at the
current namespace; `hasNestedDomains` recurses into each listed child
(a listed child missing on disk makes the recursive call's descriptor
read fail, contributing nothing). -/
def crawlLibrary : DirTree → String → List ServiceEntry
  | .node config files children, nspace =>
    match config with
    | none => []
    | some c =>
      (if c.isDomain then parseLibrary nspace files else []) ++
      (if c.hasNestedDomains then
        c.domains.flatMap fun d =>
          match h : children.find? (fun p => p.1 == d) with
          | some p => crawlLibrary p.2 (nspace ++ "." ++ d)
          | none => []
      else [])
termination_by t _ => sizeOf t
decreasing_by
  have hmem := List.mem_of_find?_eq_some h
  have h1 : sizeOf p < sizeOf children := List.sizeOf_lt_of_mem hmem
  have h2 : sizeOf p.2 < sizeOf p := by
    obtain ⟨a, b⟩ := p
    simp only [Prod.mk.sizeOf_spec]
    omega
  simp only [DirTree.node.sizeOf_spec]
  omega

/-- The domains a crawl visits, as pure tree data: the path of `domains`
segments leading to each visited domain (in visit order) paired with
that domain's files.  Defined independently of `crawlLibrary` so that
namespace stamping can be stated as a theorem. -/
def visitedDomains : DirTree → List (List String × List GoFile)
  | .node config files children =>
    match config with
    | none => []
    | some c =>
      (if c.isDomain then [([], files)] else []) ++
      (if c.hasNestedDomains then
        c.domains.flatMap fun d =>
          match h : children.find? (fun p => p.1 == d) with
          | some p => (visitedDomains p.2).map fun q => (d :: q.1, q.2)
          | none => []
      else [])
termination_by t => sizeOf t
decreasing_by
  have hmem := List.mem_of_find?_eq_some h
  have h1 : sizeOf p < sizeOf children := List.sizeOf_lt_of_mem hmem
  have h2 : sizeOf p.2 < sizeOf p := by
    obtain ⟨a, b⟩ := p
    simp only [Prod.mk.sizeOf_spec]
    omega
  simp only [DirTree.node.sizeOf_spec]
  omega

/-- Joining namespace segments by pure `"."`-concatenation. -/
def dotJoin (nspace : String) (segs : List String) : String :=
  segs.foldl (fun acc s => acc ++ "." ++ s) nspace

theorem crawl_eq_visited_aux :
    ∀ (n : ℕ) (t : DirTree), sizeOf t ≤ n → ∀ nspace,
      crawlLibrary t nspace
        = (visitedDomains t).flatMap fun q => parseLibrary (dotJoin nspace q.1) q.2 := by
  intro n
  induction n with
  | zero =>
    intro t hle
    obtain ⟨config, files, children⟩ := t
    simp only [DirTree.node.sizeOf_spec] at hle
    omega
  | succ n ih =>
    intro t hle nspace
    obtain ⟨config, files, children⟩ := t
    cases config with
    | none => simp [crawlLibrary, visitedDomains]
    | some c =>
      simp only [crawlLibrary, visitedDomains]
      rw [List.flatMap_append]
      congr 1
      · by_cases hd : c.isDomain
        · simp [hd, dotJoin]
        · simp [hd]
      · by_cases hn : c.hasNestedDomains
        · simp only [hn, if_true, List.flatMap_assoc]
          refine List.flatMap_congr fun d hdmem => ?_
          split
          next p heq =>
            have hmem := List.mem_of_find?_eq_some heq
            have hsz : sizeOf p.2 ≤ n := by
              have h1 : sizeOf p < sizeOf children := List.sizeOf_lt_of_mem hmem
              have h2 : sizeOf p.2 < sizeOf p := by
                obtain ⟨a, b⟩ := p
                simp only [Prod.mk.sizeOf_spec]
                omega
              simp only [DirTree.node.sizeOf_spec] at hle
              omega
            rw [List.flatMap_map, ih p.2 hsz (nspace ++ "." ++ d)]
            rfl
          next heq => simp
        · simp [hn]

/-- C4.  For every descriptor tree and root namespace, the crawl equals:
for each visited domain (in visit order), the extractor's entries
stamped with the root namespace joined by `"."` with the path of
`domains` segments traversed to it, in declared order — namespace
composition is pure string concatenation (`dotJoin`), children are
visited in the order the descriptor lists them (`visitedDomains`
preserves `domains` order), and segment casing is untouched. -/
theorem crawl_namespace_composition (t : DirTree) (nspace : String) :
    crawlLibrary t nspace
      = (visitedDomains t).flatMap fun q => parseLibrary (dotJoin nspace q.1) q.2 :=
  crawl_eq_visited_aux (sizeOf t) t (Nat.le_refl _) nspace

/-- The operation `Foo(x int) (int, error)`, exported, undocumented. -/
def fooDecl : FuncDecl :=
  ⟨"Foo", none, "", [⟨["x"], "int"⟩], some [⟨[], "int"⟩, ⟨[], "error"⟩]⟩

/-- A source file declaring just `Foo`. -/
def fooFile : GoFile := ⟨"functions.go", [fooDecl]⟩

/-- A leaf domain directory: `isDomain=true`, no nested domains. -/
def leafDomain (files : List GoFile) : DirTree :=
  .node (some ⟨false, [], true⟩) files []

/-- A tree whose root descriptor lists the same child twice. -/
def dupTree : DirTree :=
  .node (some ⟨true, ["a", "a"], false⟩) [] [("a", leafDomain [fooFile])]

theorem crawl_dupTree :
    crawlLibrary dupTree "lib"
      = parseLibrary ("lib" ++ "." ++ "a") [fooFile]
          ++ (parseLibrary ("lib" ++ "." ++ "a") [fooFile] ++ []) := by
  simp [dupTree, leafDomain, crawlLibrary, List.find?]

/-- C5 (counterexample).  The Catalog is not keyed by `(namespace,
method)`: a descriptor listing the same child domain twice makes the
crawl append the same operation twice, and the duplicate is silently
kept rather than rejected or merged. -/
theorem catalog_duplicates_silently_kept :
    (crawlLibrary dupTree "lib").map (fun e => (e.nspace, e.method))
        = [("lib.a", "Foo"), ("lib.a", "Foo")]
      ∧ ¬ ((crawlLibrary dupTree "lib").map (fun e => (e.nspace, e.method))).Nodup := by
  have h := crawl_dupTree
  constructor
  · rw [h]; decide
  · rw [h]; decide

/-- A root whose descriptor declares two distinct child domains, each a
leaf domain with its own files. -/
def twoDomainTree (d1 d2 : String) (files1 files2 : List GoFile) : DirTree :=
  .node (some ⟨true, [d1, d2], false⟩) []
    [(d1, leafDomain files1), (d2, leafDomain files2)]

/-- C5 (amended).  The Catalog is an append-only list, so duplicate
`(namespace, method)` pairs from overlapping crawls are silently kept
(see the counterexample); what does hold is the non-collision half: two
domains declaring the same method under different parents both appear,
distinguished by namespace — the crawl of a root with two distinct
children is exactly the concatenation of the two extractions, stamped
with the two distinct namespaces. -/
theorem catalog_distinct_namespaces_no_collision
    (nspace d1 d2 : String) (files1 files2 : List GoFile) (hne : d1 ≠ d2) :
    crawlLibrary (twoDomainTree d1 d2 files1 files2) nspace
        = parseLibrary (nspace ++ "." ++ d1) files1
            ++ parseLibrary (nspace ++ "." ++ d2) files2
      ∧ nspace ++ "." ++ d1 ≠ nspace ++ "." ++ d2 := by
  have hbeq : (d1 == d2) = false := beq_eq_false_iff_ne.mpr hne
  constructor
  · have hf1 : List.find? (fun p => p.1 == d1)
        [(d1, leafDomain files1), (d2, leafDomain files2)]
          = some (d1, leafDomain files1) := by
      simp [List.find?]
    have hf2 : List.find? (fun p => p.1 == d2)
        [(d1, leafDomain files1), (d2, leafDomain files2)]
          = some (d2, leafDomain files2) := by
      simp [List.find?, hbeq]
    simp only [twoDomainTree, crawlLibrary, if_false, if_true, Bool.false_eq_true,
      List.flatMap_cons, List.flatMap_nil, List.nil_append, List.append_nil]
    split
    next p heq =>
      rw [hf1] at heq
      injection heq with h1
      subst h1
      split
      next p heq2 =>
        rw [hf2] at heq2
        injection heq2 with h2
        subst h2
        simp [crawlLibrary, leafDomain]
      next heq2 =>
        rw [hf2] at heq2
        cases heq2
    next heq =>
      rw [hf1] at heq
      cases heq
  · intro hcontra
    apply hne
    have hdata := congrArg String.data hcontra
    simp only [String.data_append] at hdata
    exact String.ext (List.append_cancel_left hdata)

/-- C5 amended, instantiated: two leaf domains `x` and `y` each
declaring `Foo` both appear, under `lib.x` and `lib.y` respectively. -/
theorem catalog_distinct_namespaces_no_collision_witness :
    crawlLibrary (twoDomainTree "x" "y" [fooFile] [fooFile]) "lib"
        = parseLibrary ("lib" ++ "." ++ "x") [fooFile]
            ++ parseLibrary ("lib" ++ "." ++ "y") [fooFile]
      ∧ ("lib" ++ "." ++ "x" : String) ≠ "lib" ++ "." ++ "y" :=
  catalog_distinct_namespaces_no_collision "lib" "x" "y" [fooFile] [fooFile]
    (by decide)

/-- C6.  A missing or unparsable descriptor prunes its whole subtree
(zero operations, descendants unvisited); a descriptor with
`isDomain=false` and `hasNestedDomains=false` likewise contributes
nothing; and the prune is non-fatal and local: replacing a pruned
child's entire contents (files — even otherwise-valid signature
sources — and descendants) changes nothing about the crawl of the rest
of the tree. -/
theorem crawl_pruning :
    (∀ (files : List GoFile) (children : List (String × DirTree)) (nspace : String),
      crawlLibrary (.node none files children) nspace = [])
    ∧ (∀ (c : LibConfig) (files : List GoFile) (children : List (String × DirTree))
        (nspace : String), c.isDomain = false → c.hasNestedDomains = false →
        crawlLibrary (.node (some c) files children) nspace = [])
    ∧ (∀ (c : LibConfig) (files prunedFiles : List GoFile)
        (children prunedChildren : List (String × DirTree)) (nspace d : String),
        crawlLibrary
            (.node (some c) files
              ((d, .node none prunedFiles prunedChildren) :: children)) nspace
          = crawlLibrary (.node (some c) files ((d, .node none [] []) :: children))
              nspace) := by
  refine ⟨fun files children nspace => by simp [crawlLibrary], ?_, ?_⟩
  · intro c files children nspace h1 h2
    simp [crawlLibrary, h1, h2]
  · intro c files prunedFiles children prunedChildren nspace d
    simp only [crawlLibrary]
    congr 1
    by_cases hn : c.hasNestedDomains
    · simp only [hn, if_true]
      refine List.flatMap_congr fun d' hd' => ?_
      by_cases hb : (d == d') = true
      · have hf1 : List.find? (fun p => p.1 == d')
            ((d, DirTree.node none prunedFiles prunedChildren) :: children)
              = some (d, DirTree.node none prunedFiles prunedChildren) := by
          simp [List.find?, hb]
        have hf2 : List.find? (fun p => p.1 == d')
            ((d, DirTree.node none [] []) :: children)
              = some (d, DirTree.node none [] []) := by
          simp [List.find?, hb]
        split
        next p heq =>
          rw [hf1] at heq
          injection heq with h1
          subst h1
          split
          next p heq2 =>
            rw [hf2] at heq2
            injection heq2 with h2
            subst h2
            simp [crawlLibrary]
          next heq2 =>
            rw [hf2] at heq2
            cases heq2
        next heq =>
          rw [hf1] at heq
          cases heq
      · have hf1 : List.find? (fun p => p.1 == d')
            ((d, DirTree.node none prunedFiles prunedChildren) :: children)
              = List.find? (fun p => p.1 == d') children := by
          simp [List.find?, hb]
        have hf2 : List.find? (fun p => p.1 == d')
            ((d, DirTree.node none [] []) :: children)
              = List.find? (fun p => p.1 == d') children := by
          simp [List.find?, hb]
        split
        next p heq =>
          rw [hf1] at heq
          split
          next p' heq2 =>
            rw [hf2, heq] at heq2
            injection heq2 with h2
            subst h2
            rfl
          next heq2 =>
            rw [hf2, heq] at heq2
            cases heq2
        next heq =>
          rw [hf1] at heq
          split
          next p' heq2 =>
            rw [hf2, heq] at heq2
            cases heq2
          next heq2 => rfl
    · simp [hn]

/-- C6, instantiated: a no-flag descriptor over a real signature source
and a real child contributes nothing. -/
theorem crawl_pruning_witness :
    crawlLibrary
        (.node (some ⟨false, [], false⟩) [fooFile] [("a", leafDomain [fooFile])])
        "lib" = [] :=
  crawl_pruning.2.1 ⟨false, [], false⟩ [fooFile] [("a", leafDomain [fooFile])]
    "lib" rfl rfl

/-- The spec's end-to-end scenario tree: a root whose descriptor only
recurses (`hasNestedDomains=true, domains=["a"]`) into the leaf domain
`a` declaring `Foo(x int) (int, error)`. -/
def scenarioTree : DirTree :=
  .node (some ⟨true, ["a"], false⟩) [] [("a", leafDomain [fooFile])]

/-- The single catalog entry the scenario produces. -/
def fooEntry : ServiceEntry :=
  ⟨"lib.a", "Foo", "", [⟨"x", "int"⟩],
    [⟨"result_0", "int"⟩, ⟨"result_1", "error"⟩]⟩

theorem crawl_scenarioTree : crawlLibrary scenarioTree "lib" = [fooEntry] := by
  have h : crawlLibrary scenarioTree "lib"
      = parseLibrary ("lib" ++ "." ++ "a") [fooFile] ++ [] := by
    simp [scenarioTree, leafDomain, crawlLibrary, List.find?]
  rw [h]
  decide

/-- C7 (counterexample).  The crawl of the claim's two-level tree from
root namespace `lib` stamps the operation with namespace `"lib.a"`, not
`"lib.b.a"`: the root directory's own name (`b`) never enters the
namespace — the caller-supplied root namespace stands in for it, and
only child segments from `domains` lists are appended. -/
theorem scenario_namespace_not_lib_b_a :
    crawlLibrary scenarioTree "lib"
        = [⟨"lib.a", "Foo", "", [⟨"x", "int"⟩],
            [⟨"result_0", "int"⟩, ⟨"result_1", "error"⟩]⟩]
      ∧ ("lib.a" : String) ≠ "lib.b.a" := by
  refine ⟨?_, by decide⟩
  rw [crawl_scenarioTree]
  rfl

theorem flatMap_singleton_fn {α β : Type} (l : List α) (g : α → β) :
    (l.flatMap fun a => [g a]) = l.map g := by
  induction l with
  | nil => rfl
  | cons a rest ih => simp [ih]

theorem enumFrom_unnamed_outputs (l : List GoField) :
    ∀ i : ℕ, (∀ f ∈ l, f.names = []) →
      ((l.enumFrom i).flatMap fun p =>
        if p.2.names.length > 0 then p.2.names.map fun n => (⟨n, p.2.ty⟩ : ParamMetadata)
        else [⟨s!"result_{p.1}", p.2.ty⟩])
      = (l.enumFrom i).map fun p => ⟨s!"result_{p.1}", p.2.ty⟩ := by
  induction l with
  | nil => intro i h; rfl
  | cons f rest ih =>
    intro i h
    have hf : f.names = [] := h f (List.mem_cons_self f rest)
    simp only [List.enumFrom, List.flatMap_cons, List.map_cons, hf]
    rw [ih (i + 1) fun g hg => h g (List.mem_cons_of_mem f hg)]
    simp

/-- C7 (amended).  Unnamed result slots are assigned the positional
placeholder names `result_0, result_1, …` in declaration order, and an
error-signalling final result slot is listed as a normal output; the
claim's two-level scenario crawled from root namespace `lib` yields
exactly one Operation with method `Foo`, one input `x : int` and two
outputs (`result_0` integer, `result_1` error-like) — but its namespace
is `"lib.a"`: the root directory's own name does not appear, since the
caller-supplied root namespace replaces it. -/
theorem scenario_and_result_placeholders :
    (∀ results : List GoField, (∀ f ∈ results, f.names = []) →
      outputsOf (some results)
        = results.enum.map fun p => ⟨s!"result_{p.1}", p.2.ty⟩)
    ∧ crawlLibrary scenarioTree "lib"
        = [⟨"lib.a", "Foo", "", [⟨"x", "int"⟩],
            [⟨"result_0", "int"⟩, ⟨"result_1", "error"⟩]⟩] := by
  constructor
  · intro results h
    simp only [outputsOf, List.enum]
    exact enumFrom_unnamed_outputs results 0 h
  · rw [crawl_scenarioTree]
    rfl

/-- C7 amended, instantiated at the scenario's `(int, error)` result
list: the placeholder rule gives `result_0 : int` and
`result_1 : error`. -/
theorem scenario_and_result_placeholders_witness :
    outputsOf (some [⟨[], "int"⟩, ⟨[], "error"⟩])
      = [⟨"result_0", "int"⟩, ⟨"result_1", "error"⟩] := by
  rw [scenario_and_result_placeholders.1 [⟨[], "int"⟩, ⟨[], "error"⟩] (by decide)]
  rfl

/-- C9.  The extractor emits one operation per function declaration
exactly when its name is exported, in declaration order, and being
non-exported is the sole filter: the emitted methods are precisely the
exported declaration names, and neither a declaration's method receiver
nor the name of the file it lives in influences the result. -/
theorem extractor_sole_filter :
    (∀ (nspace : String) (files : List GoFile),
      (parseLibrary nspace files).map (fun e => e.method)
        = ((files.flatMap fun f => f.decls).filter fun d =>
            isExported d.name).map fun d => d.name)
    ∧ (∀ (nspace : String) (files : List GoFile),
        parseLibrary nspace
            (files.map fun f =>
              ⟨f.fname, f.decls.map fun d => ⟨d.name, none, d.doc, d.params, d.results⟩⟩)
          = parseLibrary nspace files)
    ∧ (∀ (nspace : String) (files : List GoFile),
        parseLibrary nspace (files.map fun f => ⟨"", f.decls⟩)
          = parseLibrary nspace files) := by
  refine ⟨?_, ?_, ?_⟩
  · intro nspace files
    simp only [parseLibrary, List.map_flatMap, List.filter_flatMap]
    refine List.flatMap_congr fun f hf => ?_
    rw [List.map_map]
    rfl
  · intro nspace files
    simp only [parseLibrary, List.flatMap_map]
    refine List.flatMap_congr fun f hf => ?_
    simp only [List.filter_map, List.map_map]
    refine List.map_congr_left fun d hd => rfl
  · intro nspace files
    simp only [parseLibrary, List.flatMap_map]

/-- The full Catalog (`Catalog` in Go). -/
structure Catalog where
  services : List ServiceEntry

/-- One search hit (`SearchResult` in Go); `paramType` is `"Input"` or
`"Output"`. -/
structure SearchResult where
  nspace : String
  method : String
  matchedParam : String
  paramType : String
deriving DecidableEq

/-- From `nexus-cli/main.go`, `searchByParam`: for each service, check
its inputs then its outputs against the normalized query, appending a
hit per matching parameter. -/
def searchByParam (catalog : Catalog) (query : String) : List SearchResult :=
  let normalizedQuery := normalize query
  catalog.services.foldl (fun results svc =>
    let afterInputs := svc.inputs.foldl (fun rs param =>
      if normalize param.name == normalizedQuery then
        rs ++ [⟨svc.nspace, svc.method, param.name, "Input"⟩]
      else rs) results
    svc.outputs.foldl (fun rs param =>
      if normalize param.name == normalizedQuery then
        rs ++ [⟨svc.nspace, svc.method, param.name, "Output"⟩]
      else rs) afterInputs) []

theorem foldl_filter_append {α β : Type} (ps : List α) (match? : α → Bool)
    (mk : α → β) :
    ∀ acc : List β,
      ps.foldl (fun rs param => if match? param then rs ++ [mk param] else rs) acc
        = acc ++ (ps.filter match?).map mk := by
  induction ps with
  | nil => intro acc; simp
  | cons p rest ih =>
    intro acc
    by_cases h : match? p
    · simp [List.foldl_cons, h, ih]
    · simp [List.foldl_cons, h, ih]

/-- C10.  Parameter search returns exactly the hits whose input or
output parameter name equals the query after normalization on both
sides (lowercasing and removing every underscore), in Catalog service
order, a service's input matches before its output matches, one hit per
matching parameter. -/
theorem searchByParam_characterized (catalog : Catalog) (query : String) :
    searchByParam catalog query
      = catalog.services.flatMap fun svc =>
          ((svc.inputs.filter fun p => normalize p.name == normalize query).map
            fun p => ⟨svc.nspace, svc.method, p.name, "Input"⟩)
          ++ ((svc.outputs.filter fun p => normalize p.name == normalize query).map
            fun p => ⟨svc.nspace, svc.method, p.name, "Output"⟩) := by
  have step :
      ∀ (services : List ServiceEntry) (acc : List SearchResult),
        services.foldl (fun results svc =>
          let afterInputs := svc.inputs.foldl (fun rs param =>
            if normalize param.name == normalize query then
              rs ++ [⟨svc.nspace, svc.method, param.name, "Input"⟩]
            else rs) results
          svc.outputs.foldl (fun rs param =>
            if normalize param.name == normalize query then
              rs ++ [⟨svc.nspace, svc.method, param.name, "Output"⟩]
            else rs) afterInputs) acc
        = acc ++ services.flatMap fun svc =>
            ((svc.inputs.filter fun p => normalize p.name == normalize query).map
              fun p => ⟨svc.nspace, svc.method, p.name, "Input"⟩)
            ++ ((svc.outputs.filter fun p => normalize p.name == normalize query).map
              fun p => ⟨svc.nspace, svc.method, p.name, "Output"⟩) := by
    intro services
    induction services with
    | nil => intro acc; simp
    | cons svc rest ih =>
      intro acc
      simp only [List.foldl_cons, List.flatMap_cons]
      rw [foldl_filter_append, foldl_filter_append, ih]
      simp [List.append_assoc]
  exact step catalog.services []

/-- A JSON-decoded Go `interface{}` value: `encoding/json` produces only
`float64`, `string`, `bool` and `nil` for the scalar payloads these
handlers see (numbers carried as `ℚ`; the dispatch layer never computes
with them). -/
inductive GoVal where
  | vNum (q : ℚ)
  | vStr (s : String)
  | vBool (b : Bool)
  | vNull
deriving DecidableEq

/-- The declared Go types the generated handlers distinguish. -/
inductive GoType where
  | tInt
  | tFloat64
  | tStr
deriving DecidableEq

/-- A coerced argument ready for the positional call. -/
inductive GoArg where
  | aInt (n : ℤ)
  | aFloat (q : ℚ)
  | aStr (s : String)
deriving DecidableEq

/-- Go's `int(v)` on a `float64`: truncation toward zero. -/
def goTrunc (q : ℚ) : ℤ :=
  if 0 ≤ q then ⌊q⌋ else ⌈q⌉

/-- The type-switch of `part_000`'s `serverTemplate` for one resolved
value: a value already of the declared type is taken as is; an `int`
declaration narrows a JSON number via `int(v)`; every other combination
leaves the argument at the declared type's zero value (the `case
string:` arm emitted for non-string declarations is empty, as is
`default:`).  A decoded JSON value is never a Go `int`, so `case int:`
is unreachable. -/
def coerce : GoType → GoVal → GoArg
  | .tInt, v =>
    match v with
    | .vNum q => .aInt (goTrunc q)
    | _ => .aInt 0
  | .tFloat64, v =>
    match v with
    | .vNum q => .aFloat q
    | _ => .aFloat 0
  | .tStr, v =>
    match v with
    | .vStr s => .aStr s
    | _ => .aStr ""

/-- Resolving one declared input: `getParam` then the type switch. -/
def resolveArg (params : List (String × GoVal)) (input : String × GoType) :
    Except String GoArg :=
  (getParam params input.1).map (coerce input.2)

/-- The parameter-extraction block of a `serverTemplate` handler: the
declared inputs are resolved and coerced one after another, and any
`getParam` failure returns its error immediately (the template's
`http.Error` plus `return` before the call). -/
def resolveAll (params : List (String × GoVal)) :
    List (String × GoType) → Except String (List GoArg)
  | [] => Except.ok []
  | input :: rest =>
    match resolveArg params input with
    | Except.error e => Except.error e
    | Except.ok arg =>
      match resolveAll params rest with
      | Except.error e => Except.error e
      | Except.ok args => Except.ok (arg :: args)

/-- A handler emitted by `part_000`'s `serverTemplate`: resolve and
coerce every declared input, then invoke the underlying operation
(itself fallible) with the arguments positionally. -/
def templateHandler {R : Type} (inputs : List (String × GoType))
    (params : List (String × GoVal)) (op : List GoArg → Except String R) :
    Except String R :=
  match resolveAll params inputs with
  | Except.error e => Except.error e
  | Except.ok args => op args

/-- The test `exceptOk e` is true exactly on successful results. -/
def exceptOk {ε α : Type} : Except ε α → Bool
  | .ok _ => true
  | .error _ => false

theorem getParam_ok_or_notFound {α : Type} (params : List (String × α))
    (name : String) :
    (∃ v, getParam params name = Except.ok v)
      ∨ getParam params name
          = Except.error s!"param {name} not found in request params" := by
  rw [getParam, getParamScan_eq_find]
  rcases hf1 : params.find? (fun p => p.1 == name) with _ | p
  · rcases hf2 : params.find? (fun p => fuzzyMatch p.1 name) with _ | q
    · right; rw [hf1, hf2]
    · left; exact ⟨q.2, by rw [hf1, hf2]⟩
  · left; exact ⟨p.2, by rw [hf1]⟩

theorem templateHandler_missing_aux {R : Type}
    (inputs : List (String × GoType)) (params : List (String × GoVal))
    (p : String × GoType)
    (h : inputs.find? (fun q => !(exceptOk (getParam params q.1))) = some p) :
    ∀ op : List GoArg → Except String R,
      templateHandler inputs params op
        = Except.error s!"param {p.1} not found in request params" := by
  induction inputs with
  | nil => cases h
  | cons i rest ih =>
    intro op
    by_cases hok : exceptOk (getParam params i.1) = true
    · have hfind : rest.find? (fun q => !(exceptOk (getParam params q.1))) = some p := by
        rw [List.find?_cons_of_neg] at h
        · exact h
        · simp [hok]
      rcases hv : getParam params i.1 with e | v
      · rw [hv] at hok; cases hok
      · have hres : resolveArg params i = Except.ok (coerce i.2 v) := by
          rw [resolveArg, hv]; rfl
        have hstep : templateHandler (i :: rest) params op
            = templateHandler rest params (fun args => op (coerce i.2 v :: args)) := by
          simp only [templateHandler, resolveAll, hres]
          rcases hr : resolveAll params rest with e | args <;> rfl
        rw [hstep]
        exact ih hfind _
    · have hp : i = p := by
        have hpos : (fun q => !(exceptOk (getParam params q.1))) i = true := by
          simp [hok]
        have hcons := List.find?_cons_of_pos
          (p := fun q => !(exceptOk (getParam params q.1))) rest hpos
        rw [hcons] at h
        injection h with h'
      subst hp
      rcases hv : getParam params i.1 with e | v
      · have he : e = s!"param {i.1} not found in request params" := by
          rcases getParam_ok_or_notFound params i.1 with ⟨v, hv2⟩ | hv2
          · rw [hv] at hv2; cases hv2
          · rw [hv] at hv2
            simpa using hv2
        have hres : resolveArg params i = Except.error e := by
          rw [resolveArg, hv]; rfl
        subst he
        simp only [templateHandler, resolveAll, hres]
      · rw [hv] at hok
        simp [exceptOk] at hok

/-- C2 (amended).  Handlers emitted by `part_000`'s `serverTemplate`
resolve all declared inputs before invocation: when some declared input
has no match, the whole call fails with the Resolver's
parameter-not-found error for the first such input, and the result does
not depend on the underlying operation — it is never invoked.  The
handlers the current CLI generator emits (`server_gen.go`) instead bind
a missing input to its zero value and invoke the operation regardless
(see the counterexample). -/
theorem template_handler_missing_input_fails {R : Type}
    (inputs : List (String × GoType)) (params : List (String × GoVal))
    (p : String × GoType)
    (h : inputs.find? (fun q => !(exceptOk (getParam params q.1))) = some p) :
    (∀ op : List GoArg → Except String R,
      templateHandler inputs params op
        = Except.error s!"param {p.1} not found in request params")
    ∧ (∀ op1 op2 : List GoArg → Except String R,
        templateHandler inputs params op1 = templateHandler inputs params op2) := by
  refine ⟨templateHandler_missing_aux inputs params p h, fun op1 op2 => ?_⟩
  rw [templateHandler_missing_aux inputs params p h op1,
    templateHandler_missing_aux inputs params p h op2]

/-- C2 amended, instantiated: a handler declaring the single input
`code : string` on the empty payload fails with the Resolver's error
without consulting the operation. -/
theorem template_handler_missing_input_fails_witness :
    templateHandler [("code", GoType.tStr)] ([] : List (String × GoVal))
        (fun args => Except.ok args)
      = Except.error "param code not found in request params" :=
  (template_handler_missing_input_fails [("code", GoType.tStr)] []
    ("code", GoType.tStr) (by decide)).1 (fun args => Except.ok args)

/-- The `val_code` extraction of
`wrapperlibreria_a_system_GetSystemStatus` in
`nexus/generated/server_gen.go`: direct key lookup; a missing key or a
non-string value leaves the zero value `""`. -/
def extractCode (params : List (String × GoVal)) : String :=
  match params.find? (fun p => p.1 == "code") with
  | some p =>
    match p.2 with
    | .vStr s => s
    | _ => ""
  | none => ""

/-- From `nexus/generated/server_gen.go`, the function
`wrapperlibreria_a_system_GetSystemStatus`, parameterized by the underlying
library function (value plus optional error, the Go `(ret0, ret1)`
convention). -/
def wrapperGetSystemStatus (impl : String → GoVal × Option String)
    (params : List (String × GoVal)) : Except String GoVal :=
  let val_code := extractCode params
  let r := impl val_code
  match r.2 with
  | some e => Except.error e
  | none => Except.ok r.1

/-- C2 (counterexample).  The handlers the current CLI generates
(`server_gen.go`) do not satisfy the claim: on the empty payload the
declared input `code` has no match under any resolution rule, yet the
underlying operation is invoked — with the zero value `""` — and no
`ParameterNotFound` error is produced. -/
theorem generated_handler_invokes_on_missing_input :
    wrapperGetSystemStatus (fun _ => (GoVal.vNull, some "INVOKED")) []
        = Except.error "INVOKED"
      ∧ wrapperGetSystemStatus (fun s => (GoVal.vStr s, none)) []
          = Except.ok (GoVal.vStr "")
      ∧ getParam ([] : List (String × GoVal)) "code"
          = Except.error "param code not found in request params"
      ∧ ("INVOKED" : String) ≠ "param code not found in request params" := by
  refine ⟨rfl, rfl, rfl, by decide⟩

/-- C8.  Type coercion after resolution: a declared numeric type meeting
a generic JSON number (`float64` on the wire) is narrowed to the
declared type — `int` by Go's truncating conversion, `float64` taken
as is — and a declared string type meeting a string value passes it
through unchanged; the template handler applies exactly this coercion
to each resolved value, and the current generator's handlers
(`server_gen.go`) pass a present string value through unchanged too. -/
theorem coercion_after_resolution :
    (∀ q : ℚ, coerce GoType.tInt (GoVal.vNum q) = GoArg.aInt (goTrunc q))
    ∧ (∀ q : ℚ, coerce GoType.tFloat64 (GoVal.vNum q) = GoArg.aFloat q)
    ∧ (∀ s : String, coerce GoType.tStr (GoVal.vStr s) = GoArg.aStr s)
    ∧ (∀ (R : Type) (name : String) (ty : GoType) (v : GoVal)
        (op : List GoArg → Except String R),
        templateHandler [(name, ty)] [(name, v)] op = op [coerce ty v])
    ∧ (∀ (s : String) (rest : List (String × GoVal)),
        extractCode (("code", GoVal.vStr s) :: rest) = s) := by
  refine ⟨fun q => rfl, fun q => rfl, fun s => rfl, ?_, ?_⟩
  · intro R name ty v op
    have hg : getParam [(name, v)] name = Except.ok v := by
      simp [getParam, List.find?]
    have hres : resolveArg [(name, v)] (name, ty) = Except.ok (coerce ty v) := by
      simp only [resolveArg, hg]
      rfl
    simp [templateHandler, resolveAll, hres]
  · intro s rest
    simp [extractCode, List.find?]

end Nexus
